import Mathlib

/-!
Verification of the citest structured event-journaling subsystem against its
specification. Only the journal test suite and `operation_contract.py` are
present in the sources; the journal core (Clock, Record Stream, Journal,
JournalLogHandler, JournalLogger, global registry) is modelled from the spec,
faithful to its component design, and checked against the behavior the test
suite pins down. `operation_contract.py` is embedded directly from the code.
-/

/-- JSON values occurring in journal entries: strings, integers and booleans. -/
inductive JValue where
  | s (v : String)
  | i (v : Int)
  | b (v : Bool)
deriving DecidableEq, Repr

/-- A journal entry is a JSON object: an ordered association list from
string keys to values (the order of keys inside an object is
implementation-defined; equality of entries as maps coincides with list
equality for the entries built here). -/
abbrev Entry := List (String × JValue)

/-- First-match lookup of a key in an entry or payload map. -/
def lookupField (k : String) : Entry → Option JValue
  | [] => none
  | (k2, v) :: rest => if k2 = k then some v else lookupField k rest

/-- Python truthiness of a payload value: False, 0 and the empty string are
falsy, everything else is truthy. -/
def truthy : JValue → Bool
  | JValue.b b => b
  | JValue.i n => n != 0
  | JValue.s s => s != ""

/-! ## JSON serialization (one document per journal entry)

Modelled from the spec: the Journal "serializes the merged map to one JSON
document".  The encoder below produces the document for an entry; the decoder
is the JSON-decoding step the reader applies to each yielded document. -/

/-- Escape a raw character for inclusion inside a JSON string literal. -/
def escChar (c : Char) : List Char :=
  if c = '"' ∨ c = '\\' then ['\\', c] else [c]

/-- Escape a whole string body. -/
def escBody : List Char → List Char
  | [] => []
  | c :: rest => escChar c ++ escBody rest

/-- A JSON string literal: quote, escaped body, quote. -/
def encStr (s : String) : List Char :=
  '"' :: (escBody s.data ++ ['"'])

/-- Decimal digit character for a value below ten. -/
def digitChar : Nat → Char
  | 0 => '0' | 1 => '1' | 2 => '2' | 3 => '3' | 4 => '4'
  | 5 => '5' | 6 => '6' | 7 => '7' | 8 => '8' | _ => '9'

/-- Decimal digit string of a natural number, most significant digit first. -/
def natDigits (n : Nat) : List Char :=
  if _h : n < 10 then [digitChar n]
  else natDigits (n / 10) ++ [digitChar (n % 10)]
  decreasing_by exact Nat.div_lt_self (by omega) (by omega)

/-- JSON rendering of an integer. -/
def encInt (n : Int) : List Char :=
  if n < 0 then '-' :: natDigits n.natAbs else natDigits n.natAbs

/-- JSON rendering of one value. -/
def encValue : JValue → List Char
  | JValue.s v => encStr v
  | JValue.i v => encInt v
  | JValue.b true => ['t', 'r', 'u', 'e']
  | JValue.b false => ['f', 'a', 'l', 's', 'e']

/-- JSON rendering of the comma-separated field list of an object. -/
def encFields : Entry → List Char
  | [] => []
  | [(k, v)] => encStr k ++ ':' :: encValue v
  | (k, v) :: rest => encStr k ++ ':' :: encValue v ++ ',' :: encFields rest

/-- The JSON document of an entry, as characters. -/
def jsonEncodeChars (e : Entry) : List Char :=
  '\x7b' :: (encFields e ++ ['\x7d'])

/-- The JSON document of an entry. -/
def jsonEncode (e : Entry) : String :=
  String.mk (jsonEncodeChars e)

/-! ### JSON decoding -/

/-- Whether a character is a decimal digit. -/
def isDig (c : Char) : Bool :=
  '0' ≤ c && c ≤ '9'

/-- Numeric value of a digit character. -/
def digVal (c : Char) : Nat :=
  c.toNat - 48

/-- Consume a maximal run of digits, folding them onto an accumulator. -/
def readDigits (acc : Nat) : List Char → Nat × List Char
  | [] => (acc, [])
  | c :: rest =>
    if isDig c then readDigits (acc * 10 + digVal c) rest else (acc, c :: rest)

/-- Parse the body of a JSON string literal up to its closing quote, undoing
escapes; `esc` records that the previous character was an unconsumed
backslash.  Returns the decoded body and the remaining input. -/
def parseStrBodyA (esc : Bool) : List Char → Option (List Char × List Char)
  | [] => none
  | c :: rest =>
    if esc then
      match parseStrBodyA false rest with
      | none => none
      | some (s, r) => some (c :: s, r)
    else if c = '"' then some ([], rest)
    else if c = '\\' then parseStrBodyA true rest
    else
      match parseStrBodyA false rest with
      | none => none
      | some (s, r) => some (c :: s, r)

/-- Parse the body of a JSON string literal (no escape pending). -/
def parseStrBody (l : List Char) : Option (List Char × List Char) :=
  parseStrBodyA false l

/-- Parse one JSON value (string, boolean or integer). -/
def parseValue : List Char → Option (JValue × List Char)
  | [] => none
  | c :: rest =>
    if c = '"' then
      match parseStrBody rest with
      | none => none
      | some (s, r) => some (JValue.s (String.mk s), r)
    else if c = 't' then
      match rest with
      | 'r' :: 'u' :: 'e' :: r => some (JValue.b true, r)
      | _ => none
    else if c = 'f' then
      match rest with
      | 'a' :: 'l' :: 's' :: 'e' :: r => some (JValue.b false, r)
      | _ => none
    else if c = '-' then
      match rest with
      | [] => none
      | d :: _ =>
        if isDig d then
          let (n, r) := readDigits 0 rest
          some (JValue.i (-(n : Int)), r)
        else none
    else if isDig c then
      let (n, r) := readDigits 0 (c :: rest)
      some (JValue.i (n : Int), r)
    else none

/-- Parse a nonempty comma-separated field list followed by a closing brace.
The fuel bounds the number of fields and any value at least the input length
suffices. -/
def parseFields : Nat → List Char → Option (Entry × List Char)
  | 0, _ => none
  | fuel + 1, input =>
    match input with
    | '"' :: rest =>
      match parseStrBody rest with
      | none => none
      | some (k, r1) =>
        match r1 with
        | ':' :: r2 =>
          match parseValue r2 with
          | none => none
          | some (v, r3) =>
            match r3 with
            | ',' :: r4 =>
              match parseFields fuel r4 with
              | none => none
              | some (fs, r5) => some ((String.mk k, v) :: fs, r5)
            | '\x7d' :: r4 => some ([(String.mk k, v)], r4)
            | _ => none
        | _ => none
    | _ => none

/-- Parse one JSON object document from the front of the input. -/
def parseObj (input : List Char) : Option (Entry × List Char) :=
  match input with
  | '\x7b' :: rest =>
    match rest with
    | '\x7d' :: r => some ([], r)
    | _ => parseFields (rest.length + 1) rest
  | _ => none

/-- JSON-decode one complete document (the whole string must be consumed). -/
def jsonParse (s : String) : Option Entry :=
  match parseObj s.data with
  | some (e, []) => some e
  | _ => none

/-! ## Record Stream framing

Modelled from the spec: a symmetric write/read framing protocol over a byte
sink/source, one JSON document per record, re-yielding the exact documents in
write order.  The spec leaves the exact scheme open between delimiter-based
and length-prefixed; a length prefix (decimal length, a colon, then the
document bytes) is chosen, which cannot misparse a document containing
arbitrary JSON content. -/

/-- One frame: decimal byte count, a colon, then the document itself. -/
def frameChars (doc : List Char) : List Char :=
  natDigits doc.length ++ ':' :: doc

/-- The byte-sink content after writing a sequence of documents. -/
def writeFrames : List (List Char) → List Char
  | [] => []
  | d :: rest => frameChars d ++ writeFrames rest

/-- Read back every frame from the sink content.  The fuel bounds the number
of frames; each frame occupies at least one character, so any fuel of at
least the input length plus one suffices.  Reading past the last frame yields
end of sequence (the empty input decodes to no documents, not an error). -/
def readFrames : Nat → List Char → Option (List (List Char))
  | _, [] => some []
  | 0, _ :: _ => none
  | fuel + 1, input =>
    let (n, r1) := readDigits 0 input
    match r1 with
    | ':' :: r2 =>
      if n ≤ r2.length then
        match readFrames fuel (r2.drop n) with
        | none => none
        | some docs => some (r2.take n :: docs)
      else none
    | _ => none

/-- The reader over an in-memory source: the lazy sequence of document
strings in write order, materialized as a list. -/
def RecordInputStream.readAll (source : List Char) : Option (List String) :=
  match readFrames (source.length + 1) source with
  | none => none
  | some docs => some (docs.map String.mk)

/-! ## Clock, Journal, handler, logger and global registry

Modelled from the spec: the journal core is absent from the sources (only its
test suite is present), so Clock, Journal, JournalLogHandler, JournalLogger
and the global journal registry are embedded from the component design in the
spec, with the reserved key names (`citest_journal`, `_journal_message`,
`nojournal`, `format`) and entry shapes pinned by the test suite. -/

/-- Journal state: the deterministic incrementing Clock of the tests (its
`last_time` counter), the number of times `now` has been consulted, and the
sequence of entries appended so far.  A deterministic counter Clock is the
injectable clock the spec prescribes for tests. -/
structure Journal where
  clock : Int
  consults : Nat
  entries : List Entry
deriving DecidableEq, Repr

/-- Journal-reserved entry keys, never caller-overridable. -/
def reservedKey (k : String) : Bool :=
  k == "_type" || k == "_timestamp" || k == "_thread"

/-- `Journal.append`: consult the Clock exactly once for `_timestamp`, stamp
`_thread` with the calling thread identifier, merge the kind discriminator
and required fields with the caller fields (reserved keys are never
caller-overridable), and write the merged map as one new record. -/
def Journal.append (j : Journal) (thread : Int) (typ : String)
    (fields : Entry) : Journal :=
  let ts := j.clock + 1
  { clock := ts
    consults := j.consults + 1
    entries := j.entries ++
      [("_type", JValue.s typ) :: ("_timestamp", JValue.i ts) ::
        ("_thread", JValue.i thread) :: fields.filter (fun kv => !reservedKey kv.1)] }

/-- The byte-sink content of a journal bound to an in-memory sink: each
appended entry serialized to one JSON document and framed in order. -/
def journalSinkChars (es : List Entry) : List Char :=
  writeFrames (es.map jsonEncodeChars)

/-- BEGIN context control entry: control, `_title` and caller extra fields. -/
def Journal.begin_context (j : Journal) (thread : Int) (title : String)
    (extra : Entry) : Journal :=
  j.append thread "JournalContextControl"
    (("control", JValue.s "BEGIN") :: ("_title", JValue.s title) :: extra)

/-- END context control entry: control only, no extra fields. -/
def Journal.end_context (j : Journal) (thread : Int) : Journal :=
  j.append thread "JournalContextControl" [("control", JValue.s "END")]

/-- A generic log record as the handler sees it: severity, rendered message
text, and the optional caller payload under the reserved `citest_journal`
extra key. -/
structure LogRecord where
  levelno : Int
  message : String
  citest_journal : Option Entry
deriving DecidableEq, Repr

/-- Build and append the `JournalMessage` entry for a journal-worthy record:
`_value` is the payload override `_journal_message` if present else the
rendered text, `_level` the record severity, `format` the payload `format`
if present else the literal `pre`, and every remaining payload key is copied
verbatim. -/
def journal_write_message (j : Journal) (thread : Int) (level : Int)
    (msg : String) (payload : Entry) : Journal :=
  let value : JValue :=
    match lookupField "_journal_message" payload with
    | some v => v
    | none => JValue.s msg
  let fmt : JValue :=
    match lookupField "format" payload with
    | some v => v
    | none => JValue.s "pre"
  let passthrough := payload.filter (fun kv =>
    !(kv.1 == "_journal_message" || kv.1 == "nojournal" || kv.1 == "format"))
  j.append thread "JournalMessage"
    (("_value", value) :: ("_level", JValue.i level) :: ("format", fmt) ::
      passthrough)

/-- Handler decision for one record against one target journal: no payload
means not journal-worthy (no-op); a truthy `nojournal` flag suppresses the
record for any severity; otherwise the `JournalMessage` entry is appended. -/
def emitToJournal (j : Journal) (thread : Int) (record : LogRecord) : Journal :=
  match record.citest_journal with
  | none => j
  | some payload =>
    match lookupField "nojournal" payload with
    | some v => if truthy v then j else
        journal_write_message j thread record.levelno record.message payload
    | none => journal_write_message j thread record.levelno record.message payload

/-- The process-wide registry slot holding at most one current journal. -/
structure GlobalRegistry where
  journal : Option Journal
deriving DecidableEq, Repr

/-- Install (or clear) the global journal. -/
def set_global_journal (_r : GlobalRegistry) (j : Option Journal) : GlobalRegistry :=
  { journal := j }

/-- Read the current global journal. -/
def get_global_journal (r : GlobalRegistry) : Option Journal :=
  r.journal

/-- A JournalLogHandler owns a private journal when constructed with an
explicit destination path, and none when constructed with `path=None`. -/
structure JournalLogHandler where
  own : Option Journal
deriving DecidableEq, Repr

/-- One log call through a handler: a handler with a private journal appends
there; a handler without one re-reads the global registry on this call, and a
`None` registry value makes the call a silent no-op rather than a failure. -/
def handlerEmit (h : JournalLogHandler) (r : GlobalRegistry) (thread : Int)
    (record : LogRecord) : JournalLogHandler × GlobalRegistry :=
  match h.own with
  | some j => ({ own := some (emitToJournal j thread record) }, r)
  | none =>
    match get_global_journal r with
    | none => (h, r)
    | some j => (h, { journal := some (emitToJournal j thread record) })

/-- Result of invoking a Python operation: a returned value, or a raised
exception carrying a message. -/
inductive PyResult (α : Type) where
  | ok (a : α)
  | exn (e : String)
deriving DecidableEq, Repr

/-- `JournalLogger.execute_in_context`: append the BEGIN control entry, run
the operation, and append the END control entry on every exit path (the
try/finally of the source, flattened: an operation that raises is modelled as
returning `PyResult.exn` together with the journal state at raise time, and
the END entry is appended to that state before the result or failure is
handed back to the caller). -/
def JournalLogger.execute_in_context (title : String) (extra : Entry)
    (thread : Int) (op : Journal → Journal × PyResult α) (j : Journal) :
    Journal × PyResult α :=
  let jb := j.begin_context thread title extra
  let (jop, r) := op jb
  (jop.end_context thread, r)

/-- Python logging severity constant. -/
def logging.DEBUG : Int := 10

/-- Python logging severity constant. -/
def logging.INFO : Int := 20

/-- Python logging severity constant. -/
def logging.ERROR : Int := 40

/-- One append request: the calling thread, the entry kind discriminator and
the caller fields. -/
structure AppendReq where
  thread : Int
  typ : String
  fields : Entry

/-- Run a sequence of append requests against a journal in order. -/
def appendMany (j : Journal) : List AppendReq → Journal
  | [] => j
  | r :: rs => appendMany (j.append r.thread r.typ r.fields) rs

/-- The `_timestamp` an entry carries (entries written by this journal
always carry one). -/
def entryTimestamp (e : Entry) : Int :=
  match lookupField "_timestamp" e with
  | some (JValue.i t) => t
  | _ => 0

/-- A journal as freshly constructed: clock injected at some start value,
never consulted, no entries appended. -/
def freshJournal (start : Int) : Journal :=
  { clock := start, consults := 0, entries := [] }

/-- The timestamps a deterministic counter Clock starting at `c` hands out
over `n` consecutive appends. -/
def tsRange (c : Int) : Nat → List Int
  | 0 => []
  | n + 1 => (c + 1) :: tsRange (c + 1) n

/-! ## OperationContract (embedded from `operation_contract.py`) -/

/-- A Python value as it flows through `prune_snapshot_on_success`: `None`,
a boolean, or a string (the type `os.environ.get` returns when the variable
is set). -/
inductive PyValue where
  | pynone
  | pybool (b : Bool)
  | pystr (s : String)
deriving DecidableEq, Repr

/-- `os.environ.get('CITEST_PRUNE_OPERATION_CONTRACT_ON_SUCCESS', False)`,
evaluated at module load over the environment (`none` when the variable is
unset). -/
def DEFAULT_PRUNE_OPERATION_CONTRACT_ON_SUCCESS (env : Option String) : PyValue :=
  match env with
  | some s => PyValue.pystr s
  | none => PyValue.pybool false

/-- The state `OperationContract.__init__` stores; the properties of the
class return these fields unchanged. -/
structure OperationContract (Op Ct Se Cl : Type) where
  operation : Op
  contract : Ct
  status_extractor : Option Se
  cleanup : Option Cl
  prune_snapshot_on_success : PyValue

/-- `OperationContract.__init__`: a `None` `prune_snapshot_on_success`
argument is replaced by the module-load default; every other argument is
stored as given. -/
def OperationContract.init (env : Option String) (operation : Op) (contract : Ct)
    (status_extractor : Option Se) (cleanup : Option Cl)
    (prune_snapshot_on_success : PyValue) : OperationContract Op Ct Se Cl :=
  { operation := operation
    contract := contract
    status_extractor := status_extractor
    cleanup := cleanup
    prune_snapshot_on_success :=
      if prune_snapshot_on_success = PyValue.pynone then
        DEFAULT_PRUNE_OPERATION_CONTRACT_ON_SUCCESS env
      else prune_snapshot_on_success }

/-- C5: logging at severity INFO the message "Hello, World!" with journal
payload `foo: bar, format: FMT` appends exactly one entry equal to the map
with `_type` JournalMessage, `_value` the message, `_level` INFO, the
pass-through `foo`, the supplied `format`, `_timestamp` the Clock value at
write time and `_thread` the writing thread identifier. -/
theorem journal_basic_message_scenario (j : Journal) (thread : Int) :
    (emitToJournal j thread
        ⟨logging.INFO, "Hello, World!",
          some [("foo", JValue.s "bar"), ("format", JValue.s "FMT")]⟩).entries
      = j.entries ++
        [[("_type", JValue.s "JournalMessage"),
          ("_timestamp", JValue.i (j.clock + 1)),
          ("_thread", JValue.i thread),
          ("_value", JValue.s "Hello, World!"),
          ("_level", JValue.i logging.INFO),
          ("format", JValue.s "FMT"),
          ("foo", JValue.s "bar")]] := by
  rfl

/-- C8: every entry appended to a Journal carries a `_thread` field equal to
the identifier of the thread that invoked the append, verbatim. -/
theorem journal_append_thread_identity (j : Journal) (thread : Int)
    (typ : String) (fields : Entry) :
    ∃ E, (j.append thread typ fields).entries = j.entries ++ [E] ∧
      lookupField "_thread" E = some (JValue.i thread) := by
  refine ⟨_, rfl, ?_⟩
  simp [lookupField]

/-- C6: when the payload contains the override key `_journal_message`, the
entry `_value` equals that override instead of the rendered text; when the
payload lacks a `format` key the entry `format` is the literal `pre`, and a
supplied `format` value is used verbatim. -/
theorem journal_message_override_and_default_format (j : Journal)
    (thread level : Int) (msg : String) (payload : Entry) :
    ∃ E, (journal_write_message j thread level msg payload).entries
        = j.entries ++ [E] ∧
      lookupField "_value" E =
        some (match lookupField "_journal_message" payload with
              | some v => v
              | none => JValue.s msg) ∧
      lookupField "format" E =
        some (match lookupField "format" payload with
              | some v => v
              | none => JValue.s "pre") := by
  refine ⟨_, rfl, ?_, ?_⟩ <;> simp [lookupField]

/-- C7: a log call whose payload carries a truthy `nojournal` flag produces
no journal entry at any severity (including ERROR) and leaves the journal,
hence its sink, unchanged. -/
theorem nojournal_suppression (j : Journal) (thread : Int) (record : LogRecord)
    (payload : Entry) (v : JValue)
    (hp : record.citest_journal = some payload)
    (hv : lookupField "nojournal" payload = some v)
    (ht : truthy v = true) :
    emitToJournal j thread record = j := by
  simp [emitToJournal, hp, hv, ht]

theorem nojournal_suppression_witness :
    lookupField "nojournal" [("nojournal", JValue.b true)] = some (JValue.b true) ∧
    truthy (JValue.b true) = true ∧
    emitToJournal (freshJournal 0) 1
        ⟨logging.ERROR, "Hello, World!", some [("nojournal", JValue.b true)]⟩
      = freshJournal 0 :=
  ⟨by decide, by decide,
    nojournal_suppression (freshJournal 0) 1
      ⟨logging.ERROR, "Hello, World!", some [("nojournal", JValue.b true)]⟩
      [("nojournal", JValue.b true)] (JValue.b true) rfl (by decide) (by decide)⟩

/-- C2: for every operation run under `execute_in_context`, including one
that raises (`PyResult.exn`), the matching END control entry is still the
last entry appended, and the result or failure of the operation is exactly
what reaches the caller, handed back only with the END entry already in the
journal. -/
theorem execute_in_context_end_on_every_exit {α : Type} (title : String)
    (extra : Entry) (thread : Int) (op : Journal → Journal × PyResult α)
    (j : Journal) :
    (JournalLogger.execute_in_context title extra thread op j).2
        = (op (j.begin_context thread title extra)).2 ∧
    (JournalLogger.execute_in_context title extra thread op j).1.entries
        = (op (j.begin_context thread title extra)).1.entries ++
          [[("_type", JValue.s "JournalContextControl"),
            ("_timestamp",
              JValue.i ((op (j.begin_context thread title extra)).1.clock + 1)),
            ("_thread", JValue.i thread),
            ("control", JValue.s "END")]] := by
  rcases hop : op (j.begin_context thread title extra) with ⟨jop, r⟩
  constructor <;>
    simp [JournalLogger.execute_in_context, hop, Journal.end_context,
      Journal.append, reservedKey]

/-- C9: a handler constructed without an explicit destination reads the
global registry on every log call: while the registry holds `None`, every
would-be entry is a silent no-op (not a failure); once `set_global_journal`
installs a journal, even after handler construction, the call targets it. -/
theorem handler_reads_registry_per_call (h : JournalLogHandler) (thread : Int)
    (record : LogRecord) (hH : h.own = none) :
    handlerEmit h { journal := none } thread record = (h, { journal := none }) ∧
    ∀ (r : GlobalRegistry) (j : Journal),
      handlerEmit h (set_global_journal r (some j)) thread record
        = (h, { journal := some (emitToJournal j thread record) }) := by
  constructor
  · simp [handlerEmit, hH, get_global_journal]
  · intro r j
    simp [handlerEmit, hH, set_global_journal, get_global_journal]

theorem handler_reads_registry_per_call_witness :
    handlerEmit ⟨none⟩ { journal := none } 1 ⟨logging.INFO, "m", none⟩
        = (⟨none⟩, { journal := none }) ∧
    handlerEmit ⟨none⟩
        (set_global_journal { journal := none } (some (freshJournal 0))) 1
        ⟨logging.INFO, "m", none⟩
      = (⟨none⟩, { journal := some (emitToJournal (freshJournal 0) 1
          ⟨logging.INFO, "m", none⟩) }) :=
  ⟨(handler_reads_registry_per_call ⟨none⟩ 1 ⟨logging.INFO, "m", none⟩ rfl).1,
   (handler_reads_registry_per_call ⟨none⟩ 1 ⟨logging.INFO, "m", none⟩ rfl).2
     { journal := none } (freshJournal 0)⟩

/-- C10: an `OperationContract` constructed with
`prune_snapshot_on_success = None` exposes the module-load value of the
`CITEST_PRUNE_OPERATION_CONTRACT_ON_SUCCESS` environment variable (`False`
when unset) as its `prune_snapshot_on_success` property; constructed with a
non-None value it exposes that value. -/
theorem prune_snapshot_on_success_semantics {Op Ct Se Cl : Type}
    (env : Option String) (operation : Op) (contract : Ct)
    (se : Option Se) (cl : Option Cl) (v : PyValue) :
    ((OperationContract.init env operation contract se cl
        PyValue.pynone).prune_snapshot_on_success
      = match env with
        | some s => PyValue.pystr s
        | none => PyValue.pybool false) ∧
    (v ≠ PyValue.pynone →
      (OperationContract.init env operation contract se cl
          v).prune_snapshot_on_success = v) := by
  constructor
  · simp [OperationContract.init, DEFAULT_PRUNE_OPERATION_CONTRACT_ON_SUCCESS]
  · intro hv
    simp [OperationContract.init, hv]

theorem prune_snapshot_on_success_semantics_witness :
    ((OperationContract.init (some "1") (0 : Nat) (0 : Nat)
        (none : Option Nat) (none : Option Nat)
        PyValue.pynone).prune_snapshot_on_success = PyValue.pystr "1") ∧
    ((OperationContract.init (some "1") (0 : Nat) (0 : Nat)
        (none : Option Nat) (none : Option Nat)
        (PyValue.pybool true)).prune_snapshot_on_success = PyValue.pybool true) :=
  ⟨(prune_snapshot_on_success_semantics (some "1") 0 0 none none
      (PyValue.pybool true)).1,
   (prune_snapshot_on_success_semantics (some "1") 0 0 none none
      (PyValue.pybool true)).2 (by decide)⟩

/-- Caller fields avoiding the journal-reserved keys pass the reserved-key
filter unchanged. -/
theorem filter_nonreserved (l : Entry) (hl : ∀ kv ∈ l, reservedKey kv.1 = false) :
    List.filter (fun kv => !reservedKey kv.1) l = l :=
  List.filter_eq_self.mpr (fun kv hkv => by rw [hl kv hkv]; rfl)

/-- C1: `execute_in_context` on a Journal driven by the deterministic
incrementing Clock appends exactly one BEGIN control entry carrying `_title`
and the (non-reserved) extra fields, then the entries of the wrapped
operation, then exactly one END entry with no extra fields; for an operation
performing a single internal log call the timestamps are `start+1`,
`start+2`, `start+3` where `start` is the Clock value before the call. -/
theorem execute_in_context_bracketing (title : String) (extra : Entry)
    (thread level : Int) (msg : String) (j : Journal)
    (hextra : ∀ kv ∈ extra, reservedKey kv.1 = false) :
    ((JournalLogger.execute_in_context title extra thread
        (fun jj => (emitToJournal jj thread ⟨level, msg, some []⟩,
          PyResult.ok ())) j).1).entries
      = j.entries ++
        [("_type", JValue.s "JournalContextControl") ::
           ("_timestamp", JValue.i (j.clock + 1)) ::
           ("_thread", JValue.i thread) ::
           ("control", JValue.s "BEGIN") ::
           ("_title", JValue.s title) :: extra,
         [("_type", JValue.s "JournalMessage"),
          ("_timestamp", JValue.i (j.clock + 2)),
          ("_thread", JValue.i thread),
          ("_value", JValue.s msg),
          ("_level", JValue.i level),
          ("format", JValue.s "pre")],
         [("_type", JValue.s "JournalContextControl"),
          ("_timestamp", JValue.i (j.clock + 3)),
          ("_thread", JValue.i thread),
          ("control", JValue.s "END")]] := by
  have hbegin := filter_nonreserved
    (("control", JValue.s "BEGIN") :: ("_title", JValue.s title) :: extra) (by
      intro kv hkv
      simp only [List.mem_cons] at hkv
      rcases hkv with rfl | rfl | h
      · rfl
      · rfl
      · exact hextra kv h)
  have hmsg := filter_nonreserved
    [("_value", JValue.s msg), ("_level", JValue.i level),
     ("format", JValue.s "pre")] (by
      intro kv hkv
      simp only [List.mem_cons, List.not_mem_nil, or_false] at hkv
      rcases hkv with rfl | rfl | rfl <;> rfl)
  have hend := filter_nonreserved [("control", JValue.s "END")] (by
      intro kv hkv
      simp only [List.mem_cons, List.not_mem_nil, or_false] at hkv
      rcases hkv with rfl
      rfl)
  simp only [JournalLogger.execute_in_context, Journal.begin_context,
    Journal.end_context, emitToJournal, journal_write_message, Journal.append,
    lookupField, hbegin, hmsg, hend]
  simp [add_assoc]
  decide

theorem execute_in_context_bracketing_witness :
    (∀ kv ∈ ([("foo", JValue.s "bar")] : Entry), reservedKey kv.1 = false) ∧
    ((JournalLogger.execute_in_context "The Test Context"
        [("foo", JValue.s "bar")] 7
        (fun jj => (emitToJournal jj 7 ⟨10, "Test Log Message", some []⟩,
          PyResult.ok ())) (freshJournal 5)).1).entries
      = (freshJournal 5).entries ++
        [("_type", JValue.s "JournalContextControl") ::
           ("_timestamp", JValue.i ((freshJournal 5).clock + 1)) ::
           ("_thread", JValue.i 7) ::
           ("control", JValue.s "BEGIN") ::
           ("_title", JValue.s "The Test Context") :: [("foo", JValue.s "bar")],
         [("_type", JValue.s "JournalMessage"),
          ("_timestamp", JValue.i ((freshJournal 5).clock + 2)),
          ("_thread", JValue.i 7),
          ("_value", JValue.s "Test Log Message"),
          ("_level", JValue.i 10),
          ("format", JValue.s "pre")],
         [("_type", JValue.s "JournalContextControl"),
          ("_timestamp", JValue.i ((freshJournal 5).clock + 3)),
          ("_thread", JValue.i 7),
          ("control", JValue.s "END")]] :=
  ⟨by decide,
   execute_in_context_bracketing "The Test Context" [("foo", JValue.s "bar")]
     7 10 "Test Log Message" (freshJournal 5) (by decide)⟩

theorem mem_tsRange (c : Int) (n : Nat) : ∀ x ∈ tsRange c n, c < x := by
  induction n generalizing c with
  | zero => intro x hx; simp [tsRange] at hx
  | succ n ih =>
    intro x hx
    simp only [tsRange, List.mem_cons] at hx
    rcases hx with rfl | hx
    · omega
    · have := ih (c + 1) x hx
      omega

theorem tsRange_pairwise (c : Int) (n : Nat) :
    List.Pairwise (· ≤ ·) (tsRange c n) := by
  induction n generalizing c with
  | zero => exact List.Pairwise.nil
  | succ n ih =>
    refine List.Pairwise.cons ?_ (ih (c + 1))
    intro x hx
    have := mem_tsRange (c + 1) n x hx
    omega

theorem appendMany_spec (reqs : List AppendReq) : ∀ j : Journal,
    (appendMany j reqs).consults = j.consults + reqs.length ∧
    (appendMany j reqs).entries.map entryTimestamp
      = j.entries.map entryTimestamp ++ tsRange j.clock reqs.length := by
  induction reqs with
  | nil => intro j; simp [appendMany, tsRange]
  | cons r rs ih =>
    intro j
    have h := ih (j.append r.thread r.typ r.fields)
    constructor
    · rw [appendMany, h.1]
      simp [Journal.append]
      omega
    · rw [appendMany, h.2]
      simp [Journal.append, tsRange, entryTimestamp, lookupField]

/-- C4: over any sequence of appends to a fresh Journal, each later entry
carries a `_timestamp` greater than or equal to every earlier entry
timestamp, and the Clock `now` is consulted exactly once per append (the
consult counter equals the number of appends). -/
theorem journal_timestamps_monotone_one_consult_per_append (start : Int)
    (reqs : List AppendReq) :
    List.Pairwise (fun a b => entryTimestamp a ≤ entryTimestamp b)
        ((appendMany (freshJournal start) reqs).entries) ∧
    (appendMany (freshJournal start) reqs).consults = reqs.length := by
  have h := appendMany_spec reqs (freshJournal start)
  constructor
  · have hp : List.Pairwise (· ≤ ·)
        ((appendMany (freshJournal start) reqs).entries.map entryTimestamp) := by
      rw [h.2]
      simp [freshJournal]
      exact tsRange_pairwise start reqs.length
    exact (List.pairwise_map).mp hp
  · rw [h.1]
    simp [freshJournal]

theorem digitChar_isDig (m : Nat) (h : m < 10) : isDig (digitChar m) = true := by
  interval_cases m <;> decide

theorem digitChar_digVal (m : Nat) (h : m < 10) : digVal (digitChar m) = m := by
  interval_cases m <;> decide

theorem natDigits_head (m : Nat) :
    ∃ c cs, natDigits m = c :: cs ∧ isDig c = true := by
  induction m using Nat.strong_induction_on with
  | _ m ih =>
    by_cases h : m < 10
    · exact ⟨digitChar m, [], by rw [natDigits, dif_pos h], digitChar_isDig m h⟩
    · obtain ⟨c, cs, hc, hd⟩ := ih (m / 10) (Nat.div_lt_self (by omega) (by omega))
      refine ⟨c, cs ++ [digitChar (m % 10)], ?_, hd⟩
      rw [natDigits, dif_neg h, hc]
      simp

theorem readDigits_natDigits (n : Nat) : ∀ (acc : Nat) (s : List Char),
    readDigits acc (natDigits n ++ s)
      = readDigits (acc * 10 ^ (natDigits n).length + n) s := by
  induction n using Nat.strong_induction_on with
  | _ n ih =>
    intro acc s
    by_cases h : n < 10
    · rw [natDigits, dif_pos h]
      simp only [List.singleton_append, List.length_singleton, pow_one,
        readDigits, digitChar_isDig n h, if_true, digitChar_digVal n h]
      rfl
    · rw [natDigits, dif_neg h]
      have hlt : n / 10 < n := Nat.div_lt_self (by omega) (by omega)
      have hm : n % 10 < 10 := Nat.mod_lt _ (by omega)
      rw [List.append_assoc, List.singleton_append, ih (n / 10) hlt]
      simp only [readDigits, digitChar_isDig _ hm, if_true, digitChar_digVal _ hm]
      have hlen : (natDigits (n / 10) ++ [digitChar (n % 10)]).length
          = (natDigits (n / 10)).length + 1 := by simp
      rw [hlen]
      congr 1
      have hdm : 10 * (n / 10) + n % 10 = n := Nat.div_add_mod n 10
      calc (acc * 10 ^ (natDigits (n / 10)).length + n / 10) * 10 + n % 10
          = acc * (10 ^ (natDigits (n / 10)).length * 10)
              + (10 * (n / 10) + n % 10) := by ring
        _ = acc * 10 ^ ((natDigits (n / 10)).length + 1) + n := by
              rw [hdm, pow_succ]

theorem readDigits_stop (acc : Nat) (s : List Char)
    (hs : ∀ c, s.head? = some c → isDig c = false) :
    readDigits acc s = (acc, s) := by
  cases s with
  | nil => rfl
  | cons c cs => simp [readDigits, hs c rfl]

theorem readDigits_natDigits_stop (n : Nat) (s : List Char)
    (hs : ∀ c, s.head? = some c → isDig c = false) :
    readDigits 0 (natDigits n ++ s) = (n, s) := by
  rw [readDigits_natDigits]
  simp only [Nat.zero_mul, Nat.zero_add]
  exact readDigits_stop n s hs

theorem parseStrBodyA_escBody : ∀ (l s : List Char),
    parseStrBodyA false (escBody l ++ '"' :: s) = some (l, s) := by
  intro l
  induction l with
  | nil => intro s; rfl
  | cons c cs ih =>
    intro s
    by_cases hc : c = '"' ∨ c = '\\'
    · have hesc : escChar c = ['\\', c] := by rw [escChar, if_pos hc]
      have h1 : ('\\' : Char) ≠ '"' := by decide
      simp only [escBody, hesc, List.cons_append, List.append_assoc,
        List.singleton_append]
      simp [parseStrBodyA, h1, ih s]
    · have hesc : escChar c = [c] := by rw [escChar, if_neg hc]
      push_neg at hc
      simp only [escBody, hesc, List.cons_append, List.singleton_append]
      simp [parseStrBodyA, hc.1, hc.2, ih s]

theorem parseStrBody_escBody (l s : List Char) :
    parseStrBody (escBody l ++ '"' :: s) = some (l, s) :=
  parseStrBodyA_escBody l s

theorem String.mk_data (s : String) : String.mk s.data = s := rfl

theorem parseValue_encValue (v : JValue) (s : List Char)
    (hs : ∀ c, s.head? = some c → isDig c = false) :
    parseValue (encValue v ++ s) = some (v, s) := by
  cases v with
  | s str =>
    simp only [encValue, encStr, List.cons_append, List.append_assoc,
      List.singleton_append]
    simp [parseValue, parseStrBody, parseStrBodyA_escBody, String.mk_data]
  | b bv => cases bv <;> rfl
  | i n =>
    obtain ⟨c, cs, hc, hd⟩ := natDigits_head n.natAbs
    have hcc : c :: (cs ++ s) = natDigits n.natAbs ++ s := by
      rw [hc, List.cons_append]
    have hrd : readDigits 0 (c :: (cs ++ s)) = (n.natAbs, s) := by
      rw [hcc]; exact readDigits_natDigits_stop n.natAbs s hs
    by_cases hn : n < 0
    · have hne : -(((n.natAbs : Nat) : Int)) = n := by omega
      have h1 : ('-' : Char) ≠ '"' := by decide
      have h2 : ('-' : Char) ≠ 't' := by decide
      have h3 : ('-' : Char) ≠ 'f' := by decide
      simp only [encValue, encInt, if_pos hn, List.cons_append]
      rw [hc, List.cons_append]
      simp [parseValue, h1, h2, h3, hd, hrd, hne]
      rw [abs_of_neg hn, neg_neg]
    · have hpe : (((n.natAbs : Nat) : Int)) = n := by omega
      have h1 : c ≠ '"' := by
        intro h; rw [h] at hd; exact absurd hd (by decide)
      have h2 : c ≠ 't' := by
        intro h; rw [h] at hd; exact absurd hd (by decide)
      have h3 : c ≠ 'f' := by
        intro h; rw [h] at hd; exact absurd hd (by decide)
      have h4 : c ≠ '-' := by
        intro h; rw [h] at hd; exact absurd hd (by decide)
      simp only [encValue, encInt, if_neg hn]
      rw [hc, List.cons_append]
      simp [parseValue, h1, h2, h3, h4, hd, hrd, hpe]

theorem parseFields_encFields : ∀ (e : Entry) (fuel : Nat) (s : List Char),
    e ≠ [] → e.length ≤ fuel →
    parseFields fuel (encFields e ++ '\x7d' :: s) = some (e, s) := by
  intro e
  induction e with
  | nil => intro fuel s h _; exact absurd rfl h
  | cons kv rest ih =>
    obtain ⟨k, v⟩ := kv
    intro fuel s _ hlen
    cases fuel with
    | zero => simp at hlen
    | succ f =>
      cases rest with
      | nil =>
        have hnd : ∀ c, (('\x7d' :: s) : List Char).head? = some c →
            isDig c = false := by
          intro c h
          simp only [List.head?_cons, Option.some.injEq] at h
          subst h
          decide
        have hval := parseValue_encValue v ('\x7d' :: s) hnd
        simp only [encFields, encStr, List.cons_append, List.append_assoc,
          List.singleton_append]
        simp [parseFields, parseStrBody_escBody, hval, String.mk_data]
      | cons kv2 rs =>
        obtain ⟨k2, v2⟩ := kv2
        have hnd : ∀ c,
            ((',' :: (encFields ((k2, v2) :: rs) ++ '\x7d' :: s)) :
              List Char).head? = some c → isDig c = false := by
          intro c h
          simp only [List.head?_cons, Option.some.injEq] at h
          subst h
          decide
        have hval := parseValue_encValue v
          (',' :: (encFields ((k2, v2) :: rs) ++ '\x7d' :: s)) hnd
        have hih := ih f s (by simp) (by simp at hlen ⊢; omega)
        simp only [encFields, encStr, List.cons_append, List.append_assoc,
          List.singleton_append]
        simp [parseFields, parseStrBody_escBody, hval, hih, String.mk_data]

theorem encFields_head (k : String) (v : JValue) (rest : Entry) :
    ∃ t, encFields ((k, v) :: rest) = '"' :: t := by
  cases rest with
  | nil => exact ⟨_, rfl⟩
  | cons kv2 rs =>
    obtain ⟨k2, v2⟩ := kv2
    exact ⟨_, rfl⟩

theorem length_le_encFields : ∀ e : Entry, e.length ≤ (encFields e).length := by
  intro e
  induction e with
  | nil => simp [encFields]
  | cons kv rest ih =>
    obtain ⟨k, v⟩ := kv
    cases rest with
    | nil => simp [encFields, encStr]
    | cons kv2 rs =>
      obtain ⟨k2, v2⟩ := kv2
      simp only [encFields, encStr] at ih ⊢
      simp only [List.length_cons, List.length_append, List.length_cons] at ih ⊢
      omega

theorem String.data_mk (l : List Char) : (String.mk l).data = l := rfl

theorem parseObj_jsonEncodeChars (e : Entry) :
    parseObj (jsonEncodeChars e) = some (e, []) := by
  cases e with
  | nil => rfl
  | cons kv rest =>
    obtain ⟨k, v⟩ := kv
    obtain ⟨t, ht⟩ := encFields_head k v rest
    have hrest : ('"' :: (t ++ ['\x7d']) : List Char)
        = encFields ((k, v) :: rest) ++ ['\x7d'] := by
      rw [ht]
      rfl
    have henc : jsonEncodeChars ((k, v) :: rest)
        = '\x7b' :: ('"' :: (t ++ ['\x7d'])) := by
      simp only [jsonEncodeChars, ht, List.cons_append]
    have hred : parseObj ('\x7b' :: ('"' :: (t ++ ['\x7d'])))
        = parseFields (('"' :: (t ++ ['\x7d'])).length + 1)
            ('"' :: (t ++ ['\x7d'])) := rfl
    rw [henc, hred, hrest]
    refine parseFields_encFields ((k, v) :: rest) _ [] (by simp) ?_
    have h1 := length_le_encFields ((k, v) :: rest)
    have h2 : (encFields ((k, v) :: rest)).length = t.length + 1 := by
      rw [ht]
      rfl
    simp only [List.length_append, List.length_cons] at h1 h2 ⊢
    omega

theorem jsonParse_jsonEncode (e : Entry) : jsonParse (jsonEncode e) = some e := by
  simp [jsonParse, jsonEncode, String.data_mk, parseObj_jsonEncodeChars e]

theorem readFrames_writeFrames : ∀ (docs : List (List Char)) (fuel : Nat),
    (writeFrames docs).length ≤ fuel →
    readFrames fuel (writeFrames docs) = some docs := by
  intro docs
  induction docs with
  | nil =>
    intro fuel _
    cases fuel <;> rfl
  | cons d rest ih =>
    intro fuel hfuel
    obtain ⟨c, cs, hc, hd⟩ := natDigits_head d.length
    have hlen : (natDigits d.length).length = cs.length + 1 := by
      rw [hc]
      rfl
    have hw : writeFrames (d :: rest)
        = c :: (cs ++ ':' :: (d ++ writeFrames rest)) := by
      simp only [writeFrames, frameChars, hc, List.cons_append,
        List.append_assoc]
    have hwl : (writeFrames (d :: rest)).length
        = cs.length + 1 + 1 + d.length + (writeFrames rest).length := by
      rw [hw]
      simp only [List.length_cons, List.length_append]
      omega
    cases fuel with
    | zero =>
      rw [hwl] at hfuel
      omega
    | succ f =>
      have hnd : ∀ ch, ((':' :: (d ++ writeFrames rest)) : List Char).head?
          = some ch → isDig ch = false := by
        intro ch h
        simp only [List.head?_cons, Option.some.injEq] at h
        subst h
        decide
      have hrd : readDigits 0 (c :: (cs ++ ':' :: (d ++ writeFrames rest)))
          = (d.length, ':' :: (d ++ writeFrames rest)) := by
        have hcc : c :: (cs ++ ':' :: (d ++ writeFrames rest))
            = natDigits d.length ++ (':' :: (d ++ writeFrames rest)) := by
          rw [hc, List.cons_append]
        rw [hcc]
        exact readDigits_natDigits_stop d.length _ hnd
      have hle : d.length ≤ (d ++ writeFrames rest).length := by
        simp
      have hih : readFrames f (writeFrames rest) = some rest := by
        refine ih f ?_
        rw [hwl] at hfuel
        omega
      rw [hw]
      simp only [readFrames, hrd]
      simp only [hle, if_true, List.take_left, List.drop_left, hih]

/-- C3: for every finite sequence of entries appended to a Journal bound to
an in-memory byte sink, the Record Stream reader (`RecordInputStream`)
re-yields exactly the JSON documents written, in order, and JSON-decoding
each yielded document reproduces the identical sequence of maps. -/
theorem record_stream_round_trip (es : List Entry) :
    RecordInputStream.readAll (journalSinkChars es) = some (es.map jsonEncode) ∧
    (es.map jsonEncode).map jsonParse = es.map some := by
  constructor
  · have h := readFrames_writeFrames (es.map jsonEncodeChars)
      ((writeFrames (es.map jsonEncodeChars)).length + 1) (by omega)
    rw [RecordInputStream.readAll, journalSinkChars, h]
    simp only [Option.some.injEq, List.map_map]
    rfl
  · rw [List.map_map]
    have : (jsonParse ∘ jsonEncode) = some := by
      funext e
      exact jsonParse_jsonEncode e
    rw [this]
